import Mathlib

/-!
Verification of the reconciliation-and-geometry core of `compare results.py`.

The discrete half embeds the table pipeline: normalized junction records,
key-based aggregation (pandas `groupby(...).sum()` over int64 followed by a
key sort), and the three-way reconciliation (`missing` / `extra` /
`count_mismatch`) together with the key-set cardinalities handed to the
Venn-diagram solver.

The numeric half embeds the circle geometry (`_circle_intersection_area`,
`_solve_circle_distance`, `_plot_venn`) over the real numbers, idealizing
IEEE doubles by exact reals.
-/

namespace CompareResults

/-- A normalized junction record, i.e. one row of a canonical table
(schema `KEY_COLUMNS + ["NGS_read_count"]` from the source). -/
structure Row where
  Reference : String
  Start : Int
  End : Int
  NGS_read_count : Int
  deriving DecidableEq, Repr

/-- The reconciliation key `(Reference, Start, End)`. -/
abbrev Key := String × Int × Int

/-- The key triple of a row, as used by `groupby(KEY_COLUMNS)` and the
key-only merges in the source. -/
def keyOf (r : Row) : Key := (r.Reference, r.Start, r.End)

/-- Ascending tuple order on keys: lexicographic on
(`Reference`, `Start`, `End`), matching `sort_values(KEY_COLUMNS)`. -/
def keyLe (k1 k2 : Key) : Prop :=
  toLex (k1.1, toLex (k1.2.1, k1.2.2)) ≤ toLex (k2.1, toLex (k2.2.1, k2.2.2))

instance : DecidableRel keyLe := fun k1 k2 => by
  unfold keyLe; infer_instance

instance : IsTotal Key keyLe :=
  ⟨fun _ _ => le_total _ _⟩

instance : IsTrans Key keyLe :=
  ⟨fun _ _ _ h1 h2 => le_trans h1 h2⟩

instance : IsRefl Key keyLe :=
  ⟨fun _ => le_refl _⟩

instance : IsAntisymm Key keyLe where
  antisymm a b h1 h2 := by
    have h := toLex.injective (le_antisymm h1 h2)
    have h1' : a.1 = b.1 := congrArg Prod.fst h
    have h3 := toLex.injective (congrArg Prod.snd h)
    have h4 : a.2.1 = b.2.1 := congrArg Prod.fst h3
    have h5 : a.2.2 = b.2.2 := congrArg Prod.snd h3
    exact Prod.ext h1' (Prod.ext h4 h5)

/-- 64-bit two's-complement wraparound: the value actually stored in an
int64 column when an arbitrary-precision integer is reduced mod `2 ^ 64`
into `[-2 ^ 63, 2 ^ 63)`.  This is what a NumPy-backed int64 sum produces
on overflow. -/
def int64wrap (n : Int) : Int := (n + 2 ^ 63) % 2 ^ 64 - 2 ^ 63

/-- The summed `NGS_read_count` of the group of rows sharing key `k`,
with int64 wraparound (`groupby(KEY_COLUMNS)["NGS_read_count"].sum()`
over an int64 column). -/
def groupSum (rows : List Row) (k : Key) : Int :=
  int64wrap (((rows.filter fun r => decide (keyOf r = k)).map Row.NGS_read_count).sum)

/-- The distinct keys of the input rows in ascending key order. -/
def aggKeys (rows : List Row) : List Key :=
  List.insertionSort keyLe (rows.map keyOf).dedup

/-- Embedding of `_aggregate`: group rows by key, sum `NGS_read_count`
within each group (int64 semantics), and sort the resulting one-row-per-key
table by key ascending. -/
def _aggregate (rows : List Row) : List Row :=
  (aggKeys rows).map fun k => ⟨k.1, k.2.1, k.2.2, groupSum rows k⟩

/-- A raw cell of `Start` / `End` / `NGS_read_count` before
`pd.to_numeric(..., errors="raise")`: either already numeric or a string
that may or may not parse as an integer. -/
inductive RawVal where
  | num (n : Int)
  | str (s : String)
  deriving DecidableEq, Repr

/-- Decimal digit run parser: `some` of the accumulated value if every
character is a digit, `none` otherwise. -/
def parseDigits (acc : Nat) : List Char → Option Nat
  | [] => some acc
  | c :: cs => if c.isDigit then parseDigits (acc * 10 + (c.toNat - 48)) cs else none

/-- Integer literal parser for a string cell: an optional sign followed by
a nonempty digit run.  This models the integer case of
`pd.to_numeric(..., errors="raise")`: such strings coerce, all others
raise. -/
def parseIntStr (s : String) : Option Int :=
  match s.toList with
  | [] => none
  | '-' :: c :: cs => (parseDigits 0 (c :: cs)).map fun n => -(n : Int)
  | '+' :: c :: cs => (parseDigits 0 (c :: cs)).map fun n => (n : Int)
  | c :: cs => (parseDigits 0 (c :: cs)).map fun n => (n : Int)

/-- `pd.to_numeric(..., errors="raise").astype(int)` on one cell: numeric
cells pass through, strings must parse as an integer literal, anything
else fails. -/
def coerceInt : RawVal → Option Int
  | .num n => some n
  | .str s => parseIntStr s

/-- A raw input row before type normalization. -/
structure RawRow where
  Reference : String
  Start : RawVal
  End : RawVal
  NGS_read_count : RawVal
  deriving DecidableEq, Repr

/-- The error raised when a present value cannot be coerced to an
integer (pandas raises from `errors="raise"`; the spec names this
`ParseError` of kind `NonNumericField`). -/
inductive ParseError where
  | NonNumericField
  deriving DecidableEq, Repr

/-- Normalization of one row: strip the `Reference` string and coerce the
three numeric columns, failing on any non-coercible value. -/
def normalizeRow (r : RawRow) : Except ParseError Row :=
  match coerceInt r.Start, coerceInt r.End, coerceInt r.NGS_read_count with
  | some s, some e, some c => .ok ⟨r.Reference.trim, s, e, c⟩
  | _, _, _ => .error .NonNumericField

/-- Embedding of `_normalize_types` at table level: every row must
normalize, otherwise the whole run fails with the first error. -/
def _normalize_types : List RawRow → Except ParseError (List Row)
  | [] => .ok []
  | r :: rs =>
    match normalizeRow r with
    | .error e => .error e
    | .ok row =>
      match _normalize_types rs with
      | .error e => .error e
      | .ok rows => .ok (row :: rows)

/-- The normalize-then-aggregate front of the pipeline: the canonical
table is produced only if every raw row normalizes. -/
def canonicalTable (rows : List RawRow) : Except ParseError (List Row) :=
  (_normalize_types rows).map _aggregate

lemma normalizeRow_error (r : RawRow)
    (h : coerceInt r.Start = none ∨ coerceInt r.End = none ∨
      coerceInt r.NGS_read_count = none) :
    normalizeRow r = .error .NonNumericField := by
  cases h1 : coerceInt r.Start <;> cases h2 : coerceInt r.End <;>
    cases h3 : coerceInt r.NGS_read_count <;> simp_all [normalizeRow]

/-- C8: a `Start`, `End`, or `NGS_read_count` value that is present but
cannot be coerced to an integer makes the whole normalization fail with a
`NonNumericField` parse error, and no canonical table is produced from the
remaining rows. -/
theorem C8_nonnumeric_is_fatal (rows : List RawRow)
    (h : ∃ r ∈ rows, coerceInt r.Start = none ∨ coerceInt r.End = none ∨
      coerceInt r.NGS_read_count = none) :
    _normalize_types rows = .error ParseError.NonNumericField ∧
      canonicalTable rows = .error ParseError.NonNumericField := by
  have main : _normalize_types rows = .error ParseError.NonNumericField := by
    induction rows with
    | nil => simp at h
    | cons a as ih =>
      rcases h with ⟨r, hr, hbad⟩
      rcases List.mem_cons.mp hr with rfl | hmem
      · have he := normalizeRow_error r hbad
        unfold _normalize_types
        rw [he]
      · have ih' := ih ⟨r, hmem, hbad⟩
        unfold _normalize_types
        cases hn : normalizeRow a with
        | error e => cases e; rfl
        | ok row => rw [ih']
  refine ⟨main, ?_⟩
  simp [canonicalTable, main, Except.map]

/-- C8 witness: a concrete table with one bad `Start` cell aborts. -/
theorem C8_witness :
    _normalize_types
        [⟨"chr1", .str "oops", .num 2, .num 3⟩, ⟨"chr1", .num 1, .num 2, .num 3⟩] =
      .error ParseError.NonNumericField ∧
    canonicalTable
        [⟨"chr1", .str "oops", .num 2, .num 3⟩, ⟨"chr1", .num 1, .num 2, .num 3⟩] =
      .error ParseError.NonNumericField :=
  C8_nonnumeric_is_fatal _ ⟨⟨"chr1", .str "oops", .num 2, .num 3⟩, by decide, by decide⟩

/-- C7: aggregation is order independent — permuting the input rows never
changes the aggregated table. -/
theorem C7_aggregate_order_independent (rows rows' : List Row)
    (h : rows.Perm rows') : _aggregate rows = _aggregate rows' := by
  have hg : ∀ k, groupSum rows k = groupSum rows' k := by
    intro k
    unfold groupSum
    rw [((h.filter _).map Row.NGS_read_count).sum_eq]
  have hk : aggKeys rows = aggKeys rows' := by
    unfold aggKeys
    exact List.eq_of_perm_of_sorted
      (((List.perm_insertionSort _ _).trans ((h.map keyOf).dedup)).trans
        (List.perm_insertionSort _ _).symm)
      (List.sorted_insertionSort _ _) (List.sorted_insertionSort _ _)
  unfold _aggregate
  rw [hk]
  exact List.map_congr_left fun k _ => by rw [hg]

/-- C7 witness: swapping two concrete rows leaves the aggregate unchanged. -/
theorem C7_witness :
    _aggregate [⟨"chr2", 5, 6, 7⟩, ⟨"chr1", 1, 2, 3⟩] =
      _aggregate [⟨"chr1", 1, 2, 3⟩, ⟨"chr2", 5, 6, 7⟩] :=
  C7_aggregate_order_independent _ _ (List.Perm.swap _ _ _)

/-- C6 counterexample: two rows of the same key whose counts sum to
`2 ^ 63` aggregate to the wrapped value `-2 ^ 63`; no overflow error of any
kind is raised by the code. -/
theorem C6_counterexample :
    _aggregate [⟨"a", 1, 2, 2 ^ 63 - 1⟩, ⟨"a", 1, 2, 1⟩] =
      [⟨"a", 1, 2, -(2 ^ 63)⟩] := by
  decide

/-- C6 (amended): within each key group the counts are summed with 64-bit
two's-complement wraparound; when the true sum fits in int64 the stored
count is exact, but overflow silently wraps instead of raising. -/
theorem C6_aggregate_sum_wraps (rows : List Row) (r : Row)
    (h : r ∈ _aggregate rows) :
    r.NGS_read_count =
      int64wrap (((rows.filter fun s => decide (keyOf s = keyOf r)).map
        Row.NGS_read_count).sum) ∧
    (-(2 ^ 63) ≤ ((rows.filter fun s => decide (keyOf s = keyOf r)).map
        Row.NGS_read_count).sum →
      ((rows.filter fun s => decide (keyOf s = keyOf r)).map
        Row.NGS_read_count).sum < 2 ^ 63 →
      r.NGS_read_count =
        ((rows.filter fun s => decide (keyOf s = keyOf r)).map
          Row.NGS_read_count).sum) := by
  unfold _aggregate at h
  rcases List.mem_map.mp h with ⟨k, _, rfl⟩
  have hkey : keyOf ⟨k.1, k.2.1, k.2.2, groupSum rows k⟩ = k := rfl
  rw [hkey]
  refine ⟨rfl, fun h1 h2 => ?_⟩
  show groupSum rows k = _
  unfold groupSum int64wrap
  omega

/-- C6 witness: a one-row table is aggregated exactly. -/
theorem C6_witness :
    (⟨"a", 1, 2, 3⟩ : Row).NGS_read_count =
      int64wrap ((([⟨"a", 1, 2, 3⟩] : List Row).filter fun s =>
        decide (keyOf s = keyOf ⟨"a", 1, 2, 3⟩)).map Row.NGS_read_count).sum :=
  (C6_aggregate_sum_wraps [⟨"a", 1, 2, 3⟩] ⟨"a", 1, 2, 3⟩ (by decide)).1

/-- Keys present in the ground-truth table but absent from the candidate
table (`left_only` rows of the indicator outer merge), in `valid` order. -/
def missing_in_own (valid own : List Row) : List Key :=
  (valid.map keyOf).filter fun k => decide (k ∉ own.map keyOf)

/-- Keys present in the candidate table only (`right_only`), in `own`
order. -/
def extra_in_own (valid own : List Row) : List Key :=
  (own.map keyOf).filter fun k => decide (k ∉ valid.map keyOf)

/-- The inner merge of the two canonical tables on the key columns: each
`valid` row paired with the `own` row of the same key, in `valid` order. -/
def merged_counts (valid own : List Row) : List (Row × Row) :=
  valid.filterMap fun r =>
    (own.find? fun s => decide (keyOf s = keyOf r)).map fun s => (r, s)

/-- The merged pairs whose `NGS_read_count` values differ. -/
def count_mismatch (valid own : List Row) : List (Row × Row) :=
  (merged_counts valid own).filter fun p =>
    decide (p.1.NGS_read_count ≠ p.2.NGS_read_count)

/-- Full rows printed for the missing category: the `valid` rows joined
back onto the missing keys. -/
def missing_rows (valid own : List Row) : List Row :=
  valid.filter fun r => decide (keyOf r ∈ missing_in_own valid own)

/-- Full rows printed for the extra category: the `own` rows joined back
onto the extra keys. -/
def extra_rows (valid own : List Row) : List Row :=
  own.filter fun r => decide (keyOf r ∈ extra_in_own valid own)

/-- Embedding of the exit status of `compare_results`: `0` iff no
discrepancy category is non-empty, else `1`. -/
def compare_results (valid own : List Row) : ℕ :=
  if missing_in_own valid own = [] ∧ extra_in_own valid own = [] ∧
      count_mismatch valid own = [] then 0 else 1

/-- `set(tuple(row) for row in df[KEY_COLUMNS].to_numpy())`. -/
def keySet (t : List Row) : Finset Key := (t.map keyOf).toFinset

/-- `len(valid_set - own_set)` from `_plot_venn`. -/
def only_valid (valid own : List Row) : ℕ := (keySet valid \ keySet own).card

/-- `len(own_set - valid_set)` from `_plot_venn`. -/
def only_own (valid own : List Row) : ℕ := (keySet own \ keySet valid).card

/-- `len(valid_set & own_set)` from `_plot_venn`. -/
def bothCount (valid own : List Row) : ℕ := (keySet valid ∩ keySet own).card

/-- The common keys (present in both tables), listed in `valid` order. -/
def commonKeys (valid own : List Row) : List Key :=
  (valid.map keyOf).filter fun k => decide (k ∈ own.map keyOf)

lemma merged_counts_fst_sublist (valid own : List Row) :
    List.Sublist ((merged_counts valid own).map Prod.fst) valid := by
  unfold merged_counts
  induction valid with
  | nil => simp
  | cons a as ih =>
    rw [List.filterMap_cons]
    cases h : own.find? fun s => decide (keyOf s = keyOf a) with
    | none => simpa [h] using ih.cons a
    | some s => simpa [h] using ih.cons₂ a

/-- C4: the reconciliation returns status `0` iff the three discrepancy
categories are all empty, otherwise `1`; and the rows printed for each
non-empty category are full rows joined back from the owning table, listed
in key-sorted order. -/
theorem C4_exit_status_and_report (valid own : List Row)
    (hv : List.Sorted keyLe (valid.map keyOf))
    (ho : List.Sorted keyLe (own.map keyOf)) :
    (compare_results valid own = 0 ↔
      missing_in_own valid own = [] ∧ extra_in_own valid own = [] ∧
        count_mismatch valid own = []) ∧
    (compare_results valid own = 0 ∨ compare_results valid own = 1) ∧
    List.Sorted keyLe ((missing_rows valid own).map keyOf) ∧
    List.Sorted keyLe ((extra_rows valid own).map keyOf) ∧
    List.Sorted keyLe ((count_mismatch valid own).map fun p => keyOf p.1) ∧
    (∀ r ∈ missing_rows valid own, r ∈ valid ∧ keyOf r ∉ own.map keyOf) ∧
    (∀ r ∈ extra_rows valid own, r ∈ own ∧ keyOf r ∉ valid.map keyOf) ∧
    (∀ p ∈ count_mismatch valid own, p.1 ∈ valid ∧ p.2 ∈ own ∧
      keyOf p.1 = keyOf p.2 ∧ p.1.NGS_read_count ≠ p.2.NGS_read_count) := by
  refine ⟨?_, ?_, ?_, ?_, ?_, ?_, ?_, ?_⟩
  · unfold compare_results
    split
    · simp_all
    · simp_all
  · unfold compare_results
    split
    · exact Or.inl rfl
    · exact Or.inr rfl
  · have h : (missing_rows valid own).map keyOf =
        (valid.map keyOf).filter fun k => decide (k ∈ missing_in_own valid own) := by
      unfold missing_rows
      rw [List.filter_map]
      rfl
    rw [h]
    exact hv.filter _
  · have h : (extra_rows valid own).map keyOf =
        (own.map keyOf).filter fun k => decide (k ∈ extra_in_own valid own) := by
      unfold extra_rows
      rw [List.filter_map]
      rfl
    rw [h]
    exact ho.filter _
  · have h0 : List.Sublist (count_mismatch valid own) (merged_counts valid own) :=
      List.filter_sublist _
    have h1 : List.Sublist ((count_mismatch valid own).map Prod.fst) valid :=
      (h0.map Prod.fst).trans (merged_counts_fst_sublist valid own)
    have h2 : List.Sublist ((count_mismatch valid own).map fun p => keyOf p.1)
        (valid.map keyOf) := by
      have h3 := h1.map keyOf
      rwa [List.map_map] at h3
    exact hv.sublist h2
  · intro r hr
    have h1 := List.mem_filter.mp hr
    have h2 : keyOf r ∈ missing_in_own valid own := of_decide_eq_true h1.2
    have h3 := List.mem_filter.mp h2
    exact ⟨h1.1, of_decide_eq_true h3.2⟩
  · intro r hr
    have h1 := List.mem_filter.mp hr
    have h2 : keyOf r ∈ extra_in_own valid own := of_decide_eq_true h1.2
    have h3 := List.mem_filter.mp h2
    exact ⟨h1.1, of_decide_eq_true h3.2⟩
  · intro p hp
    have h1 := List.mem_filter.mp hp
    rcases List.mem_filterMap.mp h1.1 with ⟨r, hr, hfr⟩
    rcases Option.map_eq_some'.mp hfr with ⟨s, hfind, hps⟩
    have hs : s ∈ own := List.mem_of_find?_eq_some hfind
    have hks0 := List.find?_some hfind
    have hks : keyOf s = keyOf r := by simpa using hks0
    subst hps
    exact ⟨hr, hs, hks.symm, of_decide_eq_true h1.2⟩

/-- C4 witness at a concrete discrepant pair of tables. -/
theorem C4_witness :
    ((compare_results [⟨"chr1", 1, 2, 3⟩] [] = 0 ↔
      missing_in_own [⟨"chr1", 1, 2, 3⟩] [] = [] ∧
        extra_in_own [⟨"chr1", 1, 2, 3⟩] [] = [] ∧
        count_mismatch [⟨"chr1", 1, 2, 3⟩] [] = []) ∧
    (compare_results [⟨"chr1", 1, 2, 3⟩] [] = 0 ∨
      compare_results [⟨"chr1", 1, 2, 3⟩] [] = 1) ∧
    List.Sorted keyLe ((missing_rows [⟨"chr1", 1, 2, 3⟩] []).map keyOf) ∧
    List.Sorted keyLe ((extra_rows [⟨"chr1", 1, 2, 3⟩] []).map keyOf) ∧
    List.Sorted keyLe ((count_mismatch [⟨"chr1", 1, 2, 3⟩] []).map fun p => keyOf p.1) ∧
    (∀ r ∈ missing_rows [⟨"chr1", 1, 2, 3⟩] [],
      r ∈ [(⟨"chr1", 1, 2, 3⟩ : Row)] ∧ keyOf r ∉ ([] : List Row).map keyOf) ∧
    (∀ r ∈ extra_rows [⟨"chr1", 1, 2, 3⟩] [],
      r ∈ ([] : List Row) ∧ keyOf r ∉ [(⟨"chr1", 1, 2, 3⟩ : Row)].map keyOf) ∧
    (∀ p ∈ count_mismatch [⟨"chr1", 1, 2, 3⟩] [],
      p.1 ∈ [(⟨"chr1", 1, 2, 3⟩ : Row)] ∧ p.2 ∈ ([] : List Row) ∧
      keyOf p.1 = keyOf p.2 ∧ p.1.NGS_read_count ≠ p.2.NGS_read_count)) :=
  C4_exit_status_and_report [⟨"chr1", 1, 2, 3⟩] [] (by simp) (by simp)

/-- C5: the three cardinalities handed to the Venn solver are exactly the
sizes of the reconciler's missing / extra / common key sets, and a count
mismatch never removes a key from the common (overlap) region. -/
theorem C5_solver_cardinalities (valid own : List Row)
    (hv : (valid.map keyOf).Nodup) (ho : (own.map keyOf).Nodup) :
    only_valid valid own = (missing_in_own valid own).length ∧
    only_own valid own = (extra_in_own valid own).length ∧
    bothCount valid own = (commonKeys valid own).length ∧
    (∀ p ∈ count_mismatch valid own,
      keyOf p.1 = keyOf p.2 ∧ keyOf p.1 ∈ commonKeys valid own) := by
  refine ⟨?_, ?_, ?_, ?_⟩
  · have h1 : (missing_in_own valid own).length =
        (missing_in_own valid own).toFinset.card :=
      (List.toFinset_card_of_nodup (hv.filter _)).symm
    have h2 : (missing_in_own valid own).toFinset = keySet valid \ keySet own := by
      ext k
      simp [missing_in_own, keySet, List.mem_filter]
    rw [h1, h2, only_valid]
  · have h1 : (extra_in_own valid own).length =
        (extra_in_own valid own).toFinset.card :=
      (List.toFinset_card_of_nodup (ho.filter _)).symm
    have h2 : (extra_in_own valid own).toFinset = keySet own \ keySet valid := by
      ext k
      simp [extra_in_own, keySet, List.mem_filter]
    rw [h1, h2, only_own]
  · have h1 : (commonKeys valid own).length =
        (commonKeys valid own).toFinset.card :=
      (List.toFinset_card_of_nodup (hv.filter _)).symm
    have h2 : (commonKeys valid own).toFinset = keySet valid ∩ keySet own := by
      ext k
      simp [commonKeys, keySet, List.mem_filter]
    rw [h1, h2, bothCount]
  · intro p hp
    have h1 := List.mem_filter.mp hp
    rcases List.mem_filterMap.mp h1.1 with ⟨r, hr, hfr⟩
    rcases Option.map_eq_some'.mp hfr with ⟨s, hfind, hps⟩
    have hs : s ∈ own := List.mem_of_find?_eq_some hfind
    have hks0 := List.find?_some hfind
    have hks : keyOf s = keyOf r := by simpa using hks0
    subst hps
    refine ⟨hks.symm, ?_⟩
    have hmem : keyOf r ∈ own.map keyOf := hks ▸ List.mem_map_of_mem keyOf hs
    exact List.mem_filter.mpr
      ⟨List.mem_map_of_mem keyOf hr, decide_eq_true hmem⟩

/-- C5 witness at a concrete pair of tables with a count mismatch. -/
theorem C5_witness :
    (only_valid [⟨"chr1", 1, 2, 10⟩] [⟨"chr1", 1, 2, 7⟩] =
      (missing_in_own [⟨"chr1", 1, 2, 10⟩] [⟨"chr1", 1, 2, 7⟩]).length ∧
    only_own [⟨"chr1", 1, 2, 10⟩] [⟨"chr1", 1, 2, 7⟩] =
      (extra_in_own [⟨"chr1", 1, 2, 10⟩] [⟨"chr1", 1, 2, 7⟩]).length ∧
    bothCount [⟨"chr1", 1, 2, 10⟩] [⟨"chr1", 1, 2, 7⟩] =
      (commonKeys [⟨"chr1", 1, 2, 10⟩] [⟨"chr1", 1, 2, 7⟩]).length ∧
    (∀ p ∈ count_mismatch [⟨"chr1", 1, 2, 10⟩] [⟨"chr1", 1, 2, 7⟩],
      keyOf p.1 = keyOf p.2 ∧
      keyOf p.1 ∈ commonKeys [⟨"chr1", 1, 2, 10⟩] [⟨"chr1", 1, 2, 7⟩])) :=
  C5_solver_cardinalities _ _ (by decide) (by decide)

/-! ### Circle geometry (exact-real idealization of the float code) -/

open Real

/-- First `acos` argument of `_circle_intersection_area`:
`(distance² + r1² - r2²) / (2 · distance · r1)`. -/
noncomputable def acosArg1 (r1 r2 distance : ℝ) : ℝ :=
  (distance * distance + r1 * r1 - r2 * r2) / (2 * distance * r1)

/-- Second `acos` argument of `_circle_intersection_area`. -/
noncomputable def acosArg2 (r1 r2 distance : ℝ) : ℝ :=
  (distance * distance + r2 * r2 - r1 * r1) / (2 * distance * r2)

/-- The radicand of the Heron-style square root in
`_circle_intersection_area` (before the `max 0` clamp). -/
def radicand (r1 r2 distance : ℝ) : ℝ :=
  (-distance + r1 + r2) * (distance + r1 - r2) * (distance - r1 + r2) *
    (distance + r1 + r2)

/-- Embedding of `_circle_intersection_area`: the lens-shaped overlap area
of circles of radii `r1`, `r2` whose centers are `distance` apart. -/
noncomputable def _circle_intersection_area (r1 r2 distance : ℝ) : ℝ :=
  if r1 + r2 ≤ distance then 0
  else if distance ≤ |r1 - r2| then Real.pi * min r1 r2 ^ 2
  else r1 ^ 2 * Real.arccos (acosArg1 r1 r2 distance)
    + r2 ^ 2 * Real.arccos (acosArg2 r1 r2 distance)
    - 1 / 2 * Real.sqrt (max 0 (radicand r1 r2 distance))

/-- `max_area = math.pi * min(r1, r2) ** 2` from `_solve_circle_distance`. -/
noncomputable def max_area (r1 r2 : ℝ) : ℝ := Real.pi * min r1 r2 ^ 2

/-- `target = min(max(target_area, 0.0), max_area)`. -/
noncomputable def clampedTarget (r1 r2 target_area : ℝ) : ℝ :=
  min (max target_area 0) (max_area r1 r2)

/-- The 60-iteration bisection loop of `_solve_circle_distance`:
`if area > target: low = mid else: high = mid`. -/
noncomputable def bisectLoop (r1 r2 target : ℝ) : ℕ → ℝ × ℝ → ℝ × ℝ
  | 0, p => p
  | n + 1, p =>
    let mid := (p.1 + p.2) / 2
    if target < _circle_intersection_area r1 r2 mid then
      bisectLoop r1 r2 target n (mid, p.2)
    else
      bisectLoop r1 r2 target n (p.1, mid)

/-- Embedding of `_solve_circle_distance`. -/
noncomputable def _solve_circle_distance (r1 r2 target_area : ℝ) : ℝ :=
  if clampedTarget r1 r2 target_area = 0 then r1 + r2
  else if clampedTarget r1 r2 target_area = max_area r1 r2 then |r1 - r2|
  else
    let p := bisectLoop r1 r2 (clampedTarget r1 r2 target_area) 60
      (|r1 - r2|, r1 + r2)
    (p.1 + p.2) / 2

/-- `sqrt(total / π) if total > 0 else 0.0` from `_plot_venn`. -/
noncomputable def radiusOf (total : ℕ) : ℝ :=
  if 0 < total then Real.sqrt ((total : ℝ) / Real.pi) else 0

/-- The geometry handed to the rendering library by `_plot_venn`: circle
patches (center, radius) drawn only for positive radii, and the text
labels with their positions. -/
structure VennLayout where
  r1 : ℝ
  r2 : ℝ
  distance : ℝ
  left_center : ℝ × ℝ
  right_center : ℝ × ℝ
  patches : List ((ℝ × ℝ) × ℝ)
  left_x : ℝ
  right_x : ℝ
  overlap_x : ℝ
  label_y : ℝ
  texts : List ((ℝ × ℝ) × String)

/-- The layout computation of `_plot_venn` from the three region counts. -/
noncomputable def plotVennLayout (only_valid only_own both : ℕ) : VennLayout :=
  let total_valid := only_valid + both
  let total_own := only_own + both
  let r1 := radiusOf total_valid
  let r2 := radiusOf total_own
  let distance := _solve_circle_distance r1 r2 (both : ℝ)
  let left_center : ℝ × ℝ := (0, 0)
  let right_center : ℝ × ℝ := (distance, 0)
  let left_x := left_center.1 - (if 0 < r1 then r1 * 0.5 else 0.2)
  let right_x := right_center.1 + (if 0 < r2 then r2 * 0.5 else 0.2)
  let overlap_x := (left_center.1 + right_center.1) / 2
  let max_r := max r1 r2
  let label_y := if 0 < max_r then -max_r * 1.15 else -0.5
  { r1 := r1, r2 := r2, distance := distance,
    left_center := left_center, right_center := right_center,
    patches := (if 0 < r1 then [(left_center, r1)] else []) ++
      (if 0 < r2 then [(right_center, r2)] else []),
    left_x := left_x, right_x := right_x, overlap_x := overlap_x,
    label_y := label_y,
    texts := [((left_x, 0), toString only_valid),
      ((right_x, 0), toString only_own),
      ((overlap_x, 0), toString both),
      ((left_center.1, label_y), "Jens"),
      ((right_center.1, label_y), "Own")] }

/-- Embedding of `_plot_venn` on the two key sets. -/
noncomputable def _plot_venn (valid_set own_set : Finset Key) : VennLayout :=
  plotVennLayout (valid_set \ own_set).card (own_set \ valid_set).card
    (valid_set ∩ own_set).card

lemma max_area_nonneg (r1 r2 : ℝ) : 0 ≤ max_area r1 r2 := by
  unfold max_area
  positivity

lemma solve_zero_target (r1 r2 : ℝ) :
    _solve_circle_distance r1 r2 0 = r1 + r2 := by
  have h0 : clampedTarget r1 r2 0 = 0 := by
    unfold clampedTarget
    rw [max_self]
    exact min_eq_left (max_area_nonneg r1 r2)
  unfold _solve_circle_distance
  rw [if_pos h0]

lemma solve_max_target (r1 r2 : ℝ) (h1 : 0 ≤ r1) (h2 : 0 ≤ r2) :
    _solve_circle_distance r1 r2 (max_area r1 r2) = |r1 - r2| := by
  have hct : clampedTarget r1 r2 (max_area r1 r2) = max_area r1 r2 := by
    unfold clampedTarget
    rw [max_eq_left (max_area_nonneg r1 r2), min_self]
  by_cases hz : max_area r1 r2 = 0
  · have habs : |r1 - r2| = r1 + r2 := by
      have hmin : min r1 r2 = 0 := by
        have := hz
        unfold max_area at this
        have hπ : Real.pi ≠ 0 := ne_of_gt Real.pi_pos
        have hsq : min r1 r2 ^ 2 = 0 := by
          rcases mul_eq_zero.mp this with h | h
          · exact absurd h hπ
          · exact h
        exact pow_eq_zero_iff (two_ne_zero) |>.mp hsq
      rcases le_total r1 r2 with hle | hle
      · have : r1 = 0 := by rw [min_eq_left hle] at hmin; exact hmin
        rw [this, abs_sub_comm]
        rw [sub_zero, abs_of_nonneg h2, zero_add]
      · have : r2 = 0 := by rw [min_eq_right hle] at hmin; exact hmin
        rw [this, sub_zero, abs_of_nonneg h1, add_zero]
    unfold _solve_circle_distance
    rw [if_pos (hct.trans hz), habs]
  · unfold _solve_circle_distance
    rw [if_neg (fun h => hz (hct.symm.trans h)), if_pos hct]

/-- C3: the solver's degenerate cases are exact: target `0` returns
`r1 + r2`, target `π·min(r1,r2)²` returns `|r1 - r2|`, and the all-zero
input yields zero radii and distance `0` via the exact branch. -/
theorem C3_degenerate_cases_exact (r1 r2 : ℝ) (h1 : 0 ≤ r1) (h2 : 0 ≤ r2) :
    _solve_circle_distance r1 r2 0 = r1 + r2 ∧
    _solve_circle_distance r1 r2 (Real.pi * min r1 r2 ^ 2) = |r1 - r2| ∧
    radiusOf 0 = 0 ∧
    _solve_circle_distance (radiusOf 0) (radiusOf 0) 0 = 0 := by
  have hr0 : radiusOf 0 = 0 := by unfold radiusOf; norm_num
  refine ⟨solve_zero_target r1 r2, solve_max_target r1 r2 h1 h2, hr0, ?_⟩
  rw [hr0, solve_zero_target, add_zero]

/-- C3 witness at radii `(3, 1)`. -/
theorem C3_witness :
    _solve_circle_distance 3 1 0 = 3 + 1 ∧
    _solve_circle_distance 3 1 (Real.pi * min 3 1 ^ 2) = |3 - 1| ∧
    radiusOf 0 = 0 ∧
    _solve_circle_distance (radiusOf 0) (radiusOf 0) 0 = 0 :=
  C3_degenerate_cases_exact 3 1 (by norm_num) (by norm_num)

lemma interior_bounds (r1 r2 d : ℝ) (h1 : 0 ≤ r1) (h2 : 0 ≤ r2)
    (g1 : d < r1 + r2) (g2 : |r1 - r2| < d) :
    0 < d ∧ 0 < r1 ∧ 0 < r2 ∧
    -1 < acosArg1 r1 r2 d ∧ acosArg1 r1 r2 d < 1 ∧
    -1 < acosArg2 r1 r2 d ∧ acosArg2 r1 r2 d < 1 ∧
    0 < radicand r1 r2 d := by
  have habs := abs_lt.mp g2
  have hd : 0 < d := lt_of_le_of_lt (abs_nonneg _) g2
  have hr1 : 0 < r1 := by
    rcases lt_or_eq_of_le h1 with h | h
    · exact h
    · exfalso
      rw [← h] at g1 habs
      linarith [habs.1]
  have hr2 : 0 < r2 := by
    rcases lt_or_eq_of_le h2 with h | h
    · exact h
    · exfalso
      rw [← h] at g1 habs
      linarith [habs.2]
  have hf1 : 0 < -d + r1 + r2 := by linarith
  have hf2 : 0 < d + r1 - r2 := by linarith [habs.1]
  have hf3 : 0 < d - r1 + r2 := by linarith [habs.2]
  have hf4 : 0 < d + r1 + r2 := by linarith
  have hden1 : (0 : ℝ) < 2 * d * r1 := by positivity
  have hden2 : (0 : ℝ) < 2 * d * r2 := by positivity
  refine ⟨hd, hr1, hr2, ?_, ?_, ?_, ?_, ?_⟩
  · unfold acosArg1
    rw [lt_div_iff hden1]
    nlinarith
  · unfold acosArg1
    rw [div_lt_one hden1]
    nlinarith
  · unfold acosArg2
    rw [lt_div_iff hden2]
    nlinarith
  · unfold acosArg2
    rw [div_lt_one hden2]
    nlinarith
  · unfold radicand
    positivity

/-- C10: on fall-through of the two guards of `_circle_intersection_area`
(radii nonnegative, `|r1-r2| < distance < r1+r2`), the distance is
positive, both `acos` arguments lie in `[-1, 1]`, both divisors are
non-zero, and the clamped radicand is non-negative, so no partial math
function is applied outside its domain. -/
theorem C10_no_domain_error (r1 r2 d : ℝ) (h1 : 0 ≤ r1) (h2 : 0 ≤ r2)
    (h0 : 0 ≤ d) (g1 : d < r1 + r2) (g2 : |r1 - r2| < d) :
    0 < d ∧
    -1 ≤ acosArg1 r1 r2 d ∧ acosArg1 r1 r2 d ≤ 1 ∧
    -1 ≤ acosArg2 r1 r2 d ∧ acosArg2 r1 r2 d ≤ 1 ∧
    2 * d * r1 ≠ 0 ∧ 2 * d * r2 ≠ 0 ∧
    0 ≤ max 0 (radicand r1 r2 d) := by
  obtain ⟨hd, hr1, hr2, ha1, ha2, ha3, ha4, _⟩ :=
    interior_bounds r1 r2 d h1 h2 g1 g2
  exact ⟨hd, le_of_lt ha1, le_of_lt ha2, le_of_lt ha3, le_of_lt ha4,
    by positivity, by positivity, le_max_left 0 _⟩

/-- C10 witness at `r1 = r2 = 1`, `distance = 1`. -/
theorem C10_witness :
    (0 : ℝ) < 1 ∧
    -1 ≤ acosArg1 1 1 1 ∧ acosArg1 1 1 1 ≤ 1 ∧
    -1 ≤ acosArg2 1 1 1 ∧ acosArg2 1 1 1 ≤ 1 ∧
    2 * (1 : ℝ) * 1 ≠ 0 ∧ 2 * (1 : ℝ) * 1 ≠ 0 ∧
    0 ≤ max 0 (radicand 1 1 1) :=
  C10_no_domain_error 1 1 1 (by norm_num) (by norm_num) (by norm_num)
    (by norm_num) (by rw [sub_self, abs_zero]; norm_num)

lemma plotVennLayout_r1 (a b c : ℕ) :
    (plotVennLayout a b c).r1 = radiusOf (a + c) := rfl

lemma plotVennLayout_r2 (a b c : ℕ) :
    (plotVennLayout a b c).r2 = radiusOf (b + c) := rfl

lemma plotVennLayout_distance (a b c : ℕ) :
    (plotVennLayout a b c).distance =
      _solve_circle_distance (radiusOf (a + c)) (radiusOf (b + c)) (c : ℝ) := rfl

lemma plotVennLayout_patches (a b c : ℕ) :
    (plotVennLayout a b c).patches =
      (if 0 < radiusOf (a + c) then [(((0 : ℝ), (0 : ℝ)), radiusOf (a + c))]
        else []) ++
      (if 0 < radiusOf (b + c) then
        [(((plotVennLayout a b c).distance, (0 : ℝ)), radiusOf (b + c))]
        else []) := rfl

lemma plotVennLayout_left_x (a b c : ℕ) :
    (plotVennLayout a b c).left_x =
      0 - (if 0 < radiusOf (a + c) then radiusOf (a + c) * 0.5 else 0.2) := rfl

lemma plotVennLayout_right_x (a b c : ℕ) :
    (plotVennLayout a b c).right_x =
      (plotVennLayout a b c).distance +
        (if 0 < radiusOf (b + c) then radiusOf (b + c) * 0.5 else 0.2) := rfl

lemma plotVennLayout_texts (a b c : ℕ) :
    (plotVennLayout a b c).texts =
      [(((plotVennLayout a b c).left_x, (0 : ℝ)), toString a),
        (((plotVennLayout a b c).right_x, (0 : ℝ)), toString b),
        (((plotVennLayout a b c).overlap_x, (0 : ℝ)), toString c),
        (((0 : ℝ), (plotVennLayout a b c).label_y), "Jens"),
        (((plotVennLayout a b c).distance, (plotVennLayout a b c).label_y),
          "Own")] := rfl

lemma radiusOf_zero : radiusOf 0 = 0 := by unfold radiusOf; norm_num

lemma radiusOf_pos (n : ℕ) (h : 0 < n) : 0 < radiusOf n := by
  unfold radiusOf
  rw [if_pos h]
  refine Real.sqrt_pos.mpr (div_pos ?_ Real.pi_pos)
  exact_mod_cast h

lemma radiusOf_nonneg (n : ℕ) : 0 ≤ radiusOf n := by
  unfold radiusOf
  split
  · exact Real.sqrt_nonneg _
  · exact le_refl 0

lemma sq_radiusOf (n : ℕ) : radiusOf n ^ 2 = (n : ℝ) / Real.pi := by
  unfold radiusOf
  split
  · exact Real.sq_sqrt (by positivity)
  · rename_i h
    have : n = 0 := Nat.le_zero.mp (not_lt.mp h)
    subst this
    norm_num

lemma plot_left_zero (a b c : ℕ) (h1 : a + c = 0) (h2 : 0 < b + c) :
    (plotVennLayout a b c).r1 = 0 ∧
    0 < (plotVennLayout a b c).r2 ∧
    (plotVennLayout a b c).distance = (plotVennLayout a b c).r2 := by
  have hc : c = 0 := by omega
  have hr1 : (plotVennLayout a b c).r1 = 0 := by
    rw [plotVennLayout_r1, h1, radiusOf_zero]
  have hr2 : 0 < (plotVennLayout a b c).r2 := by
    rw [plotVennLayout_r2]
    exact radiusOf_pos _ h2
  refine ⟨hr1, hr2, ?_⟩
  rw [plotVennLayout_distance, plotVennLayout_r2, h1, radiusOf_zero, hc]
  rw [Nat.cast_zero, solve_zero_target, zero_add]

/-- C9 counterexample: with one empty set the other circle is placed at
distance equal to its own radius, which varies with the set size — two
concrete inputs with a zero left radius produce different offsets, so the
placement is not at a fixed small offset. -/
theorem C9_counterexample :
    (plotVennLayout 0 1 0).r1 = 0 ∧ 0 < (plotVennLayout 0 1 0).r2 ∧
    (plotVennLayout 0 4 0).r1 = 0 ∧ 0 < (plotVennLayout 0 4 0).r2 ∧
    (plotVennLayout 0 1 0).distance ≠ (plotVennLayout 0 4 0).distance := by
  obtain ⟨ha1, ha2, ha3⟩ := plot_left_zero 0 1 0 rfl (by norm_num)
  obtain ⟨hb1, hb2, hb3⟩ := plot_left_zero 0 4 0 rfl (by norm_num)
  refine ⟨ha1, ha2, hb1, hb2, ?_⟩
  rw [ha3, hb3, plotVennLayout_r2, plotVennLayout_r2]
  unfold radiusOf
  rw [if_pos (by norm_num : 0 < 1 + 0), if_pos (by norm_num : 0 < 4 + 0)]
  intro h
  have heq := (Real.sqrt_inj (by positivity) (by positivity)).mp h
  have hπ : Real.pi ≠ 0 := ne_of_gt Real.pi_pos
  rw [div_eq_div_iff (by positivity) (by positivity)] at heq
  have h14 : ((1 + 0 : ℕ) : ℝ) = ((4 + 0 : ℕ) : ℝ) :=
    mul_right_cancel₀ hπ heq
  norm_num at h14

/-- C9 (amended): when exactly one radius is `0`, the solver places the
other circle at distance `r1 + r2` (its own radius, not a fixed small
offset); only the positive-radius circle patch is drawn, while the
zero-size set keeps its count label, whose x position uses the fixed
`0.2` offset. -/
theorem C9_zero_radius_layout (a b c : ℕ)
    (h : (a + c = 0 ∧ 0 < b + c) ∨ (b + c = 0 ∧ 0 < a + c)) :
    (plotVennLayout a b c).distance =
      (plotVennLayout a b c).r1 + (plotVennLayout a b c).r2 ∧
    min (plotVennLayout a b c).r1 (plotVennLayout a b c).r2 = 0 ∧
    0 < max (plotVennLayout a b c).r1 (plotVennLayout a b c).r2 ∧
    (plotVennLayout a b c).patches.length = 1 ∧
    (((plotVennLayout a b c).left_x, (0 : ℝ)), toString a) ∈
      (plotVennLayout a b c).texts ∧
    (((plotVennLayout a b c).right_x, (0 : ℝ)), toString b) ∈
      (plotVennLayout a b c).texts ∧
    ((plotVennLayout a b c).r1 = 0 →
      (plotVennLayout a b c).left_x = -(0.2 : ℝ)) ∧
    ((plotVennLayout a b c).r2 = 0 →
      (plotVennLayout a b c).right_x = (plotVennLayout a b c).distance + 0.2) := by
  have htexts1 : (((plotVennLayout a b c).left_x, (0 : ℝ)), toString a) ∈
      (plotVennLayout a b c).texts := by
    rw [plotVennLayout_texts]
    exact List.mem_cons_self _ _
  have htexts2 : (((plotVennLayout a b c).right_x, (0 : ℝ)), toString b) ∈
      (plotVennLayout a b c).texts := by
    rw [plotVennLayout_texts]
    exact List.mem_cons_of_mem _ (List.mem_cons_self _ _)
  rcases h with ⟨h1, h2⟩ | ⟨h1, h2⟩
  · obtain ⟨hr1, hr2, hd⟩ := plot_left_zero a b c h1 h2
    have hr1' : ¬ 0 < radiusOf (a + c) := by
      rw [h1, radiusOf_zero]
      exact lt_irrefl 0
    have hr2' : 0 < radiusOf (b + c) := radiusOf_pos _ h2
    refine ⟨by rw [hd, hr1, zero_add], by rw [hr1]; exact min_eq_left hr2.le,
      ?_, ?_, htexts1, htexts2, ?_, ?_⟩
    · rw [hr1]
      rw [max_eq_right hr2.le]
      exact hr2
    · rw [plotVennLayout_patches, if_neg hr1', if_pos hr2']
      rfl
    · intro _
      rw [plotVennLayout_left_x, if_neg hr1']
      norm_num
    · intro hz
      rw [plotVennLayout_r2] at hz
      rw [hz] at hr2'
      exact absurd hr2' (lt_irrefl 0)
  · have hc : c = 0 := by omega
    have hr2 : (plotVennLayout a b c).r2 = 0 := by
      rw [plotVennLayout_r2, h1, radiusOf_zero]
    have hr1 : 0 < (plotVennLayout a b c).r1 := by
      rw [plotVennLayout_r1]
      exact radiusOf_pos _ h2
    have hr2' : ¬ 0 < radiusOf (b + c) := by
      rw [h1, radiusOf_zero]
      exact lt_irrefl 0
    have hr1' : 0 < radiusOf (a + c) := radiusOf_pos _ h2
    have hd : (plotVennLayout a b c).distance =
        (plotVennLayout a b c).r1 + (plotVennLayout a b c).r2 := by
      rw [plotVennLayout_distance, plotVennLayout_r1, plotVennLayout_r2, h1,
        radiusOf_zero, hc]
      rw [Nat.cast_zero, solve_zero_target]
    refine ⟨hd, by rw [hr2]; exact min_eq_right hr1.le, ?_, ?_, htexts1,
      htexts2, ?_, ?_⟩
    · rw [hr2, max_eq_left hr1.le]
      exact hr1
    · rw [plotVennLayout_patches, if_pos hr1', if_neg hr2']
      rfl
    · intro hz
      rw [plotVennLayout_r1] at hz
      rw [hz] at hr1'
      exact absurd hr1' (lt_irrefl 0)
    · intro _
      rw [plotVennLayout_right_x, if_neg hr2']

/-- C9 witness at `(only_a, only_b, both) = (0, 1, 0)`. -/
theorem C9_witness :
    (plotVennLayout 0 1 0).distance =
      (plotVennLayout 0 1 0).r1 + (plotVennLayout 0 1 0).r2 ∧
    min (plotVennLayout 0 1 0).r1 (plotVennLayout 0 1 0).r2 = 0 ∧
    0 < max (plotVennLayout 0 1 0).r1 (plotVennLayout 0 1 0).r2 ∧
    (plotVennLayout 0 1 0).patches.length = 1 ∧
    (((plotVennLayout 0 1 0).left_x, (0 : ℝ)), toString 0) ∈
      (plotVennLayout 0 1 0).texts ∧
    (((plotVennLayout 0 1 0).right_x, (0 : ℝ)), toString 1) ∈
      (plotVennLayout 0 1 0).texts ∧
    ((plotVennLayout 0 1 0).r1 = 0 →
      (plotVennLayout 0 1 0).left_x = -(0.2 : ℝ)) ∧
    ((plotVennLayout 0 1 0).r2 = 0 →
      (plotVennLayout 0 1 0).right_x = (plotVennLayout 0 1 0).distance + 0.2) :=
  C9_zero_radius_layout 0 1 0 (Or.inl ⟨rfl, by norm_num⟩)

/-! ### Analysis of the lens area: derivative, continuity, monotonicity -/

/-- The third (unguarded) branch of `_circle_intersection_area` as a
standalone function of the distance. -/
noncomputable def lensFormula (r1 r2 d : ℝ) : ℝ :=
  r1 ^ 2 * Real.arccos (acosArg1 r1 r2 d)
    + r2 ^ 2 * Real.arccos (acosArg2 r1 r2 d)
    - 1 / 2 * Real.sqrt (max 0 (radicand r1 r2 d))

lemma radicand_identity1 (r1 r2 d : ℝ) :
    (2 * d * r1) ^ 2 - (d * d + r1 * r1 - r2 * r2) ^ 2 = radicand r1 r2 d := by
  unfold radicand; ring

lemma radicand_identity2 (r1 r2 d : ℝ) :
    (2 * d * r2) ^ 2 - (d * d + r2 * r2 - r1 * r1) ^ 2 = radicand r1 r2 d := by
  unfold radicand; ring

lemma sqrt_one_sub_arg1 (r1 r2 d : ℝ) (hd : 0 < d) (hr1 : 0 < r1) :
    Real.sqrt (1 - acosArg1 r1 r2 d ^ 2) =
      Real.sqrt (radicand r1 r2 d) / (2 * d * r1) := by
  have hden : (0 : ℝ) < 2 * d * r1 := by positivity
  have h1 : 1 - acosArg1 r1 r2 d ^ 2 = radicand r1 r2 d / (2 * d * r1) ^ 2 := by
    unfold acosArg1
    rw [div_pow, ← radicand_identity1 r1 r2 d]
    field_simp
  rw [h1, Real.sqrt_div' _ (by positivity), Real.sqrt_sq hden.le]

lemma sqrt_one_sub_arg2 (r1 r2 d : ℝ) (hd : 0 < d) (hr2 : 0 < r2) :
    Real.sqrt (1 - acosArg2 r1 r2 d ^ 2) =
      Real.sqrt (radicand r1 r2 d) / (2 * d * r2) := by
  have hden : (0 : ℝ) < 2 * d * r2 := by positivity
  have h1 : 1 - acosArg2 r1 r2 d ^ 2 = radicand r1 r2 d / (2 * d * r2) ^ 2 := by
    unfold acosArg2
    rw [div_pow, ← radicand_identity2 r1 r2 d]
    field_simp
  rw [h1, Real.sqrt_div' _ (by positivity), Real.sqrt_sq hden.le]

lemma lensFormula_hasDerivAt (r1 r2 d : ℝ)
    (hd : 0 < d) (hr1 : 0 < r1) (hr2 : 0 < r2)
    (hb1 : -1 < acosArg1 r1 r2 d) (hb2 : acosArg1 r1 r2 d < 1)
    (hb3 : -1 < acosArg2 r1 r2 d) (hb4 : acosArg2 r1 r2 d < 1)
    (hrad : 0 < radicand r1 r2 d) :
    HasDerivAt (fun x => lensFormula r1 r2 x)
      (-(Real.sqrt (radicand r1 r2 d) / d)) d := by
  have hs : 0 < Real.sqrt (radicand r1 r2 d) := Real.sqrt_pos.mpr hrad
  have hs2 : Real.sqrt (radicand r1 r2 d) ^ 2 = radicand r1 r2 d :=
    Real.sq_sqrt hrad.le
  have hden1 : (0 : ℝ) < 2 * d * r1 := by positivity
  have hden2 : (0 : ℝ) < 2 * d * r2 := by positivity
  have hN1 : HasDerivAt (fun x : ℝ => x * x + r1 * r1 - r2 * r2)
      (1 * d + d * 1) d :=
    (((hasDerivAt_id d).mul (hasDerivAt_id d)).add_const _).sub_const _
  have hN2 : HasDerivAt (fun x : ℝ => x * x + r2 * r2 - r1 * r1)
      (1 * d + d * 1) d :=
    (((hasDerivAt_id d).mul (hasDerivAt_id d)).add_const _).sub_const _
  have hD1 : HasDerivAt (fun x : ℝ => 2 * x * r1) (2 * 1 * r1) d :=
    ((hasDerivAt_id d).const_mul 2).mul_const r1
  have hD2 : HasDerivAt (fun x : ℝ => 2 * x * r2) (2 * 1 * r2) d :=
    ((hasDerivAt_id d).const_mul 2).mul_const r2
  have hu : HasDerivAt (fun x => acosArg1 r1 r2 x)
      (((1 * d + d * 1) * (2 * d * r1) -
        (d * d + r1 * r1 - r2 * r2) * (2 * 1 * r1)) / (2 * d * r1) ^ 2) d := by
    unfold acosArg1
    exact hN1.div hD1 (ne_of_gt hden1)
  have hv : HasDerivAt (fun x => acosArg2 r1 r2 x)
      (((1 * d + d * 1) * (2 * d * r2) -
        (d * d + r2 * r2 - r1 * r1) * (2 * 1 * r2)) / (2 * d * r2) ^ 2) d := by
    unfold acosArg2
    exact hN2.div hD2 (ne_of_gt hden2)
  have harc1 : HasDerivAt (fun x => Real.arccos (acosArg1 r1 r2 x))
      (-(1 / Real.sqrt (1 - acosArg1 r1 r2 d ^ 2)) *
        (((1 * d + d * 1) * (2 * d * r1) -
          (d * d + r1 * r1 - r2 * r2) * (2 * 1 * r1)) / (2 * d * r1) ^ 2)) d :=
    (Real.hasDerivAt_arccos (ne_of_gt hb1) (ne_of_lt hb2)).comp d hu
  have harc2 : HasDerivAt (fun x => Real.arccos (acosArg2 r1 r2 x))
      (-(1 / Real.sqrt (1 - acosArg2 r1 r2 d ^ 2)) *
        (((1 * d + d * 1) * (2 * d * r2) -
          (d * d + r2 * r2 - r1 * r1) * (2 * 1 * r2)) / (2 * d * r2) ^ 2)) d :=
    (Real.hasDerivAt_arccos (ne_of_gt hb3) (ne_of_lt hb4)).comp d hv
  have hf1 : HasDerivAt (fun x : ℝ => -x + r1 + r2) (-1) d :=
    (((hasDerivAt_id d).neg).add_const r1).add_const r2
  have hf2 : HasDerivAt (fun x : ℝ => x + r1 - r2) 1 d :=
    ((hasDerivAt_id d).add_const r1).sub_const r2
  have hf3 : HasDerivAt (fun x : ℝ => x - r1 + r2) 1 d :=
    ((hasDerivAt_id d).sub_const r1).add_const r2
  have hf4 : HasDerivAt (fun x : ℝ => x + r1 + r2) 1 d :=
    ((hasDerivAt_id d).add_const r1).add_const r2
  have hP : HasDerivAt (fun x => radicand r1 r2 x)
      ((((-1) * (d + r1 - r2) + (-d + r1 + r2) * 1) * (d - r1 + r2) +
        (-d + r1 + r2) * (d + r1 - r2) * 1) * (d + r1 + r2) +
        (-d + r1 + r2) * (d + r1 - r2) * (d - r1 + r2) * 1) d := by
    unfold radicand
    exact ((hf1.mul hf2).mul hf3).mul hf4
  have hsqrt : HasDerivAt (fun x => Real.sqrt (radicand r1 r2 x))
      (((((-1) * (d + r1 - r2) + (-d + r1 + r2) * 1) * (d - r1 + r2) +
        (-d + r1 + r2) * (d + r1 - r2) * 1) * (d + r1 + r2) +
        (-d + r1 + r2) * (d + r1 - r2) * (d - r1 + r2) * 1) /
        (2 * Real.sqrt (radicand r1 r2 d))) d :=
    hP.sqrt (ne_of_gt hrad)
  have hradCont : Continuous (fun x => radicand r1 r2 x) := by
    unfold radicand; fun_prop
  have hopen : IsOpen {x : ℝ | 0 < radicand r1 r2 x} :=
    isOpen_lt continuous_const hradCont
  have hev : (fun x => Real.sqrt (max 0 (radicand r1 r2 x))) =ᶠ[nhds d]
      (fun x => Real.sqrt (radicand r1 r2 x)) := by
    filter_upwards [hopen.mem_nhds hrad] with x hx
    rw [max_eq_right hx.le]
  have hsqrtm := hsqrt.congr_of_eventuallyEq hev
  have htotal := ((harc1.const_mul ((r1 : ℝ) ^ 2)).add
    (harc2.const_mul ((r2 : ℝ) ^ 2))).sub (hsqrtm.const_mul ((1 : ℝ) / 2))
  have hgoal : HasDerivAt (fun x => lensFormula r1 r2 x)
      ((r1 : ℝ) ^ 2 *
        (-(1 / Real.sqrt (1 - acosArg1 r1 r2 d ^ 2)) *
          (((1 * d + d * 1) * (2 * d * r1) -
            (d * d + r1 * r1 - r2 * r2) * (2 * 1 * r1)) / (2 * d * r1) ^ 2)) +
      (r2 : ℝ) ^ 2 *
        (-(1 / Real.sqrt (1 - acosArg2 r1 r2 d ^ 2)) *
          (((1 * d + d * 1) * (2 * d * r2) -
            (d * d + r2 * r2 - r1 * r1) * (2 * 1 * r2)) / (2 * d * r2) ^ 2)) -
      1 / 2 *
        (((((-1) * (d + r1 - r2) + (-d + r1 + r2) * 1) * (d - r1 + r2) +
          (-d + r1 + r2) * (d + r1 - r2) * 1) * (d + r1 + r2) +
          (-d + r1 + r2) * (d + r1 - r2) * (d - r1 + r2) * 1) /
          (2 * Real.sqrt (radicand r1 r2 d)))) d := htotal
  have heq : (r1 : ℝ) ^ 2 *
        (-(1 / Real.sqrt (1 - acosArg1 r1 r2 d ^ 2)) *
          (((1 * d + d * 1) * (2 * d * r1) -
            (d * d + r1 * r1 - r2 * r2) * (2 * 1 * r1)) / (2 * d * r1) ^ 2)) +
      (r2 : ℝ) ^ 2 *
        (-(1 / Real.sqrt (1 - acosArg2 r1 r2 d ^ 2)) *
          (((1 * d + d * 1) * (2 * d * r2) -
            (d * d + r2 * r2 - r1 * r1) * (2 * 1 * r2)) / (2 * d * r2) ^ 2)) -
      1 / 2 *
        (((((-1) * (d + r1 - r2) + (-d + r1 + r2) * 1) * (d - r1 + r2) +
          (-d + r1 + r2) * (d + r1 - r2) * 1) * (d + r1 + r2) +
          (-d + r1 + r2) * (d + r1 - r2) * (d - r1 + r2) * 1) /
          (2 * Real.sqrt (radicand r1 r2 d))) =
      -(Real.sqrt (radicand r1 r2 d) / d) := by
    rw [sqrt_one_sub_arg1 r1 r2 d hd hr1, sqrt_one_sub_arg2 r1 r2 d hd hr2]
    have hs' : Real.sqrt (radicand r1 r2 d) ≠ 0 := ne_of_gt hs
    have hrad' : radicand r1 r2 d =
        (-d + r1 + r2) * (d + r1 - r2) * (d - r1 + r2) * (d + r1 + r2) := rfl
    have hs2' : Real.sqrt (radicand r1 r2 d) ^ 2 =
        (-d + r1 + r2) * (d + r1 - r2) * (d - r1 + r2) * (d + r1 + r2) :=
      hs2.trans hrad'
    field_simp
    linear_combination (64 * r1 ^ 2 * d ^ 4 * r2 ^ 2 *
      Real.sqrt (radicand r1 r2 d) ^ 2) * hs2'
  rw [heq] at hgoal
  exact hgoal

lemma sqrt_max_radicand_continuous (r1 r2 : ℝ) :
    Continuous (fun d => Real.sqrt (max 0 (radicand r1 r2 d))) := by
  apply Real.continuous_sqrt.comp
  apply continuous_const.max
  unfold radicand
  fun_prop

lemma acosArg_eq_of_eq_radii (r1 : ℝ) (hr1 : 0 < r1) :
    ∀ d, acosArg1 r1 r1 d = d / (2 * r1) := by
  intro d
  unfold acosArg1
  rcases eq_or_ne d 0 with rfl | hd0
  · simp
  · have h1 : d * d + r1 * r1 - r1 * r1 = d * d := by ring
    have h2 : 2 * d * r1 = d * (2 * r1) := by ring
    rw [h1, h2, mul_div_mul_left _ _ hd0]

lemma acosArg2_eq_of_eq_radii (r1 : ℝ) (hr1 : 0 < r1) :
    ∀ d, acosArg2 r1 r1 d = d / (2 * r1) := by
  intro d
  unfold acosArg2
  rcases eq_or_ne d 0 with rfl | hd0
  · simp
  · have h1 : d * d + r1 * r1 - r1 * r1 = d * d := by ring
    have h2 : 2 * d * r1 = d * (2 * r1) := by ring
    rw [h1, h2, mul_div_mul_left _ _ hd0]

lemma lensFormula_continuousOn (r1 r2 : ℝ) (hr1 : 0 < r1) (hr2 : 0 < r2) :
    ContinuousOn (fun d => lensFormula r1 r2 d)
      (Set.Icc |r1 - r2| (r1 + r2)) := by
  have hsqrtc := sqrt_max_radicand_continuous r1 r2
  rcases eq_or_ne r1 r2 with heq | hne
  · subst heq
    unfold lensFormula
    simp only [acosArg_eq_of_eq_radii r1 hr1, acosArg2_eq_of_eq_radii r1 hr1]
    apply Continuous.continuousOn
    exact ((continuous_const.mul
        (Real.continuous_arccos.comp (continuous_id.div_const _))).add
      (continuous_const.mul
        (Real.continuous_arccos.comp (continuous_id.div_const _)))).sub
      (continuous_const.mul hsqrtc)
  · have habs : 0 < |r1 - r2| := abs_pos.mpr (sub_ne_zero.mpr hne)
    have hdne : ∀ d ∈ Set.Icc |r1 - r2| (r1 + r2), d ≠ 0 := fun d hd =>
      ne_of_gt (lt_of_lt_of_le habs hd.1)
    have harg1c : ContinuousOn (fun d => acosArg1 r1 r2 d)
        (Set.Icc |r1 - r2| (r1 + r2)) := by
      unfold acosArg1
      apply ContinuousOn.div (by fun_prop) (by fun_prop)
      intro d hd
      exact mul_ne_zero (mul_ne_zero two_ne_zero (hdne d hd)) (ne_of_gt hr1)
    have harg2c : ContinuousOn (fun d => acosArg2 r1 r2 d)
        (Set.Icc |r1 - r2| (r1 + r2)) := by
      unfold acosArg2
      apply ContinuousOn.div (by fun_prop) (by fun_prop)
      intro d hd
      exact mul_ne_zero (mul_ne_zero two_ne_zero (hdne d hd)) (ne_of_gt hr2)
    unfold lensFormula
    exact ((continuousOn_const.mul
        (Real.continuous_arccos.comp_continuousOn harg1c)).add
      (continuousOn_const.mul
        (Real.continuous_arccos.comp_continuousOn harg2c))).sub
      (continuousOn_const.mul hsqrtc.continuousOn)

lemma lensFormula_outer (r1 r2 : ℝ) (hr1 : 0 < r1) (hr2 : 0 < r2) :
    lensFormula r1 r2 (r1 + r2) = 0 := by
  unfold lensFormula
  have e1 : acosArg1 r1 r2 (r1 + r2) = 1 := by
    unfold acosArg1
    rw [div_eq_one_iff_eq (by positivity)]
    ring
  have e2 : acosArg2 r1 r2 (r1 + r2) = 1 := by
    unfold acosArg2
    rw [div_eq_one_iff_eq (by positivity)]
    ring
  have e3 : radicand r1 r2 (r1 + r2) = 0 := by unfold radicand; ring
  rw [e1, e2, Real.arccos_one, e3, max_self, Real.sqrt_zero]
  ring

lemma lensFormula_inner (r1 r2 : ℝ) (hr1 : 0 < r1) (hr2 : 0 < r2) :
    lensFormula r1 r2 |r1 - r2| = Real.pi * min r1 r2 ^ 2 := by
  rcases lt_trichotomy r1 r2 with h | h | h
  · have habs : |r1 - r2| = r2 - r1 := by
      rw [abs_of_neg (sub_neg.mpr h), neg_sub]
    unfold lensFormula
    have e1 : acosArg1 r1 r2 (r2 - r1) = -1 := by
      unfold acosArg1
      have hden : (2 : ℝ) * (r2 - r1) * r1 ≠ 0 := by
        have : (0 : ℝ) < r2 - r1 := sub_pos.mpr h
        positivity
      rw [div_eq_iff hden]
      ring
    have e2 : acosArg2 r1 r2 (r2 - r1) = 1 := by
      unfold acosArg2
      have hden : (2 : ℝ) * (r2 - r1) * r2 ≠ 0 := by
        have : (0 : ℝ) < r2 - r1 := sub_pos.mpr h
        positivity
      rw [div_eq_one_iff_eq hden]
      ring
    have e3 : radicand r1 r2 (r2 - r1) = 0 := by unfold radicand; ring
    rw [habs, e1, e2, Real.arccos_neg_one, Real.arccos_one, e3, max_self,
      Real.sqrt_zero, min_eq_left h.le]
    ring
  · subst h
    have habs : |r1 - r1| = 0 := by rw [sub_self, abs_zero]
    unfold lensFormula
    have e1 : acosArg1 r1 r1 0 = 0 := by
      rw [acosArg_eq_of_eq_radii r1 hr1 0, zero_div]
    have e2 : acosArg2 r1 r1 0 = 0 := by
      rw [acosArg2_eq_of_eq_radii r1 hr1 0, zero_div]
    have e3 : radicand r1 r1 0 = 0 := by unfold radicand; ring
    rw [habs, e1, e2, Real.arccos_zero, e3, max_self, Real.sqrt_zero,
      min_self]
    ring
  · have habs : |r1 - r2| = r1 - r2 := abs_of_nonneg (sub_nonneg.mpr h.le)
    unfold lensFormula
    have e1 : acosArg1 r1 r2 (r1 - r2) = 1 := by
      unfold acosArg1
      have hden : (2 : ℝ) * (r1 - r2) * r1 ≠ 0 := by
        have : (0 : ℝ) < r1 - r2 := sub_pos.mpr h
        positivity
      rw [div_eq_one_iff_eq hden]
      ring
    have e2 : acosArg2 r1 r2 (r1 - r2) = -1 := by
      unfold acosArg2
      have hden : (2 : ℝ) * (r1 - r2) * r2 ≠ 0 := by
        have : (0 : ℝ) < r1 - r2 := sub_pos.mpr h
        positivity
      rw [div_eq_iff hden]
      ring
    have e3 : radicand r1 r2 (r1 - r2) = 0 := by unfold radicand; ring
    rw [habs, e1, e2, Real.arccos_neg_one, Real.arccos_one, e3, max_self,
      Real.sqrt_zero, min_eq_right h.le]
    ring

lemma abs_sub_lt_add (r1 r2 : ℝ) (hr1 : 0 < r1) (hr2 : 0 < r2) :
    |r1 - r2| < r1 + r2 := by
  rw [abs_lt]
  constructor <;> linarith

lemma area_at_outer (r1 r2 : ℝ) :
    _circle_intersection_area r1 r2 (r1 + r2) = 0 := by
  unfold _circle_intersection_area
  rw [if_pos le_rfl]

lemma area_at_inner (r1 r2 : ℝ) (hlt : |r1 - r2| < r1 + r2) :
    _circle_intersection_area r1 r2 |r1 - r2| = Real.pi * min r1 r2 ^ 2 := by
  unfold _circle_intersection_area
  rw [if_neg (not_le.mpr hlt), if_pos le_rfl]

lemma area_eqOn_formula (r1 r2 : ℝ) (hr1 : 0 < r1) (hr2 : 0 < r2) :
    Set.EqOn (_circle_intersection_area r1 r2) (fun d => lensFormula r1 r2 d)
      (Set.Icc |r1 - r2| (r1 + r2)) := by
  intro d hd
  have hlt : |r1 - r2| < r1 + r2 := abs_sub_lt_add r1 r2 hr1 hr2
  rcases eq_or_lt_of_le hd.1 with heq | h1
  · rw [← heq, area_at_inner r1 r2 hlt]
    exact (lensFormula_inner r1 r2 hr1 hr2).symm
  · rcases eq_or_lt_of_le hd.2 with heq2 | h2
    · rw [heq2, area_at_outer]
      exact (lensFormula_outer r1 r2 hr1 hr2).symm
    · unfold _circle_intersection_area lensFormula
      rw [if_neg (not_le.mpr h2), if_neg (not_le.mpr h1)]

lemma lensFormula_antitoneOn (r1 r2 : ℝ) (hr1 : 0 < r1) (hr2 : 0 < r2) :
    AntitoneOn (fun d => lensFormula r1 r2 d)
      (Set.Icc |r1 - r2| (r1 + r2)) := by
  apply antitoneOn_of_deriv_nonpos (convex_Icc _ _)
    (lensFormula_continuousOn r1 r2 hr1 hr2)
  · rw [interior_Icc]
    intro d hd
    obtain ⟨h0, h1', h2', hb1, hb2, hb3, hb4, hrad⟩ :=
      interior_bounds r1 r2 d hr1.le hr2.le hd.2 hd.1
    exact (lensFormula_hasDerivAt r1 r2 d h0 h1' h2' hb1 hb2 hb3 hb4
      hrad).differentiableAt.differentiableWithinAt
  · rw [interior_Icc]
    intro d hd
    obtain ⟨h0, h1', h2', hb1, hb2, hb3, hb4, hrad⟩ :=
      interior_bounds r1 r2 d hr1.le hr2.le hd.2 hd.1
    rw [(lensFormula_hasDerivAt r1 r2 d h0 h1' h2' hb1 hb2 hb3 hb4
      hrad).deriv]
    have hnn : 0 ≤ Real.sqrt (radicand r1 r2 d) / d :=
      div_nonneg (Real.sqrt_nonneg _) h0.le
    linarith

lemma area_antitoneOn (r1 r2 : ℝ) (h1 : 0 ≤ r1) (h2 : 0 ≤ r2) :
    AntitoneOn (_circle_intersection_area r1 r2)
      (Set.Icc |r1 - r2| (r1 + r2)) := by
  rcases eq_or_lt_of_le h1 with hz1 | hp1
  · -- r1 = 0: the interval is a single point
    have hsing : |r1 - r2| = r1 + r2 := by
      rw [← hz1, zero_sub, abs_neg, abs_of_nonneg h2, zero_add]
    intro x hx y hy _
    have hx' : x = r1 + r2 := le_antisymm hx.2 (hsing ▸ hx.1)
    have hy' : y = r1 + r2 := le_antisymm hy.2 (hsing ▸ hy.1)
    rw [hx', hy']
  · rcases eq_or_lt_of_le h2 with hz2 | hp2
    · have hsing : |r1 - r2| = r1 + r2 := by
        rw [← hz2, sub_zero, abs_of_nonneg h1, add_zero]
      intro x hx y hy _
      have hx' : x = r1 + r2 := le_antisymm hx.2 (hsing ▸ hx.1)
      have hy' : y = r1 + r2 := le_antisymm hy.2 (hsing ▸ hy.1)
      rw [hx', hy']
    · intro x hx y hy hxy
      have hform := lensFormula_antitoneOn r1 r2 hp1 hp2 hx hy hxy
      have hEq := area_eqOn_formula r1 r2 hp1 hp2
      rw [hEq hx, hEq hy]
      exact hform

/-- C2: on `[|r1-r2|, r1+r2]` the lens area computed by
`_circle_intersection_area` is monotonically non-increasing in the
distance. -/
theorem C2_lens_area_antitone (r1 r2 : ℝ) (h1 : 0 ≤ r1) (h2 : 0 ≤ r2)
    (d1 d2 : ℝ) (hd1 : d1 ∈ Set.Icc |r1 - r2| (r1 + r2))
    (hd2 : d2 ∈ Set.Icc |r1 - r2| (r1 + r2)) (h12 : d1 ≤ d2) :
    _circle_intersection_area r1 r2 d2 ≤ _circle_intersection_area r1 r2 d1 :=
  area_antitoneOn r1 r2 h1 h2 hd1 hd2 h12

/-- C2 witness at `r1 = 2`, `r2 = 1`, `d1 = 1`, `d2 = 2`. -/
theorem C2_witness :
    _circle_intersection_area 2 1 2 ≤ _circle_intersection_area 2 1 1 :=
  C2_lens_area_antitone 2 1 (by norm_num) (by norm_num) 1 2
    (by constructor <;> norm_num [abs_of_nonneg])
    (by constructor <;> norm_num [abs_of_nonneg]) (by norm_num)

/-! ### Bisection analysis -/

lemma bisectLoop_spec (r1 r2 target : ℝ) :
    ∀ (n : ℕ) (p : ℝ × ℝ),
      |r1 - r2| ≤ p.1 → p.1 < p.2 → p.2 ≤ r1 + r2 →
      _circle_intersection_area r1 r2 p.2 ≤ target →
      target ≤ _circle_intersection_area r1 r2 p.1 →
      |r1 - r2| ≤ (bisectLoop r1 r2 target n p).1 ∧
      (bisectLoop r1 r2 target n p).1 < (bisectLoop r1 r2 target n p).2 ∧
      (bisectLoop r1 r2 target n p).2 ≤ r1 + r2 ∧
      _circle_intersection_area r1 r2 (bisectLoop r1 r2 target n p).2 ≤
        target ∧
      target ≤ _circle_intersection_area r1 r2 (bisectLoop r1 r2 target n p).1 ∧
      (bisectLoop r1 r2 target n p).2 - (bisectLoop r1 r2 target n p).1 =
        (p.2 - p.1) / 2 ^ n := by
  intro n
  induction n with
  | zero =>
    intro p h1 h2 h3 h4 h5
    refine ⟨h1, h2, h3, h4, h5, ?_⟩
    norm_num [bisectLoop]
  | succ n ih =>
    intro p h1 h2 h3 h4 h5
    have hm1 : p.1 < (p.1 + p.2) / 2 := by linarith
    have hm2 : (p.1 + p.2) / 2 < p.2 := by linarith
    have hpow : ((2 : ℝ)) ^ n ≠ 0 := by positivity
    simp only [bisectLoop]
    split_ifs with harea
    · obtain ⟨i1, i2, i3, i4, i5, i6⟩ := ih ((p.1 + p.2) / 2, p.2)
        (h1.trans hm1.le) hm2 h3 h4 harea.le
      refine ⟨i1, i2, i3, i4, i5, ?_⟩
      rw [i6]
      show (p.2 - (p.1 + p.2) / 2) / 2 ^ n = (p.2 - p.1) / 2 ^ (n + 1)
      field_simp
      ring
    · obtain ⟨i1, i2, i3, i4, i5, i6⟩ := ih (p.1, (p.1 + p.2) / 2)
        h1 hm1 (hm2.le.trans h3) (not_lt.mp harea) h5
      refine ⟨i1, i2, i3, i4, i5, ?_⟩
      rw [i6]
      show ((p.1 + p.2) / 2 - p.1) / 2 ^ n = (p.2 - p.1) / 2 ^ (n + 1)
      field_simp
      ring

lemma sqrt_radicand_div_le (r1 r2 d : ℝ) (h1 : 0 ≤ r1) (h2 : 0 ≤ r2)
    (g1 : d < r1 + r2) (g2 : |r1 - r2| < d) :
    Real.sqrt (radicand r1 r2 d) / d ≤ r1 + r2 := by
  obtain ⟨hd, hr1, hr2, _, _, _, _, hrad⟩ :=
    interior_bounds r1 r2 d h1 h2 g1 g2
  have hfact : radicand r1 r2 d =
      ((r1 + r2) ^ 2 - d ^ 2) * (d ^ 2 - (r1 - r2) ^ 2) := by
    unfold radicand; ring
  have habs := abs_lt.mp g2
  have hsq : (r1 - r2) ^ 2 < d ^ 2 := sq_lt_sq' habs.1 habs.2
  have hb1 : (r1 + r2) ^ 2 - d ^ 2 ≤ (r1 + r2) ^ 2 := by nlinarith
  have hb2 : d ^ 2 - (r1 - r2) ^ 2 ≤ d ^ 2 := by nlinarith
  have hnn2 : 0 ≤ d ^ 2 - (r1 - r2) ^ 2 := by linarith
  have hle : radicand r1 r2 d ≤ (d * (r1 + r2)) ^ 2 := by
    rw [hfact]
    calc ((r1 + r2) ^ 2 - d ^ 2) * (d ^ 2 - (r1 - r2) ^ 2) ≤
        (r1 + r2) ^ 2 * d ^ 2 := mul_le_mul hb1 hb2 hnn2 (by positivity)
      _ = (d * (r1 + r2)) ^ 2 := by ring
  have hs : Real.sqrt (radicand r1 r2 d) ≤ d * (r1 + r2) := by
    calc Real.sqrt (radicand r1 r2 d) ≤ Real.sqrt ((d * (r1 + r2)) ^ 2) :=
        Real.sqrt_le_sqrt hle
      _ = d * (r1 + r2) := Real.sqrt_sq (by positivity)
  rw [div_le_iff hd]
  exact hs.trans_eq (mul_comm _ _)

lemma area_sub_le (r1 r2 : ℝ) (hr1 : 0 < r1) (hr2 : 0 < r2) (lo hi : ℝ)
    (hlo : |r1 - r2| ≤ lo) (hlt : lo < hi) (hhi : hi ≤ r1 + r2) :
    _circle_intersection_area r1 r2 lo - _circle_intersection_area r1 r2 hi ≤
      (r1 + r2) * (hi - lo) := by
  have hsub : Set.Icc lo hi ⊆ Set.Icc |r1 - r2| (r1 + r2) :=
    Set.Icc_subset_Icc hlo hhi
  have hconts : ContinuousOn (_circle_intersection_area r1 r2)
      (Set.Icc lo hi) :=
    (((lensFormula_continuousOn r1 r2 hr1 hr2).mono hsub).congr
      (fun x hx => area_eqOn_formula r1 r2 hr1 hr2 (hsub hx)))
  have hderiv : ∀ x ∈ Set.Ioo lo hi,
      HasDerivAt (_circle_intersection_area r1 r2)
        (-(Real.sqrt (radicand r1 r2 x) / x)) x := by
    intro x hx
    have hx1 : |r1 - r2| < x := lt_of_le_of_lt hlo hx.1
    have hx2 : x < r1 + r2 := lt_of_lt_of_le hx.2 hhi
    obtain ⟨h0, hp1, hp2, hb1, hb2, hb3, hb4, hrad⟩ :=
      interior_bounds r1 r2 x hr1.le hr2.le hx2 hx1
    have hform := lensFormula_hasDerivAt r1 r2 x h0 hp1 hp2 hb1 hb2 hb3 hb4
      hrad
    apply hform.congr_of_eventuallyEq
    have hopen : IsOpen (Set.Ioo |r1 - r2| (r1 + r2)) := isOpen_Ioo
    filter_upwards [hopen.mem_nhds ⟨hx1, hx2⟩] with y hy
    exact area_eqOn_formula r1 r2 hr1 hr2 (Set.mem_Icc_of_Ioo hy)
  obtain ⟨c, hc, hslope⟩ := exists_hasDerivAt_eq_slope
    (_circle_intersection_area r1 r2) _ hlt hconts hderiv
  have hc1 : |r1 - r2| < c := lt_of_le_of_lt hlo hc.1
  have hc2 : c < r1 + r2 := lt_of_lt_of_le hc.2 hhi
  have hcd : 0 < c := lt_of_le_of_lt (abs_nonneg _) hc1
  have hbound := sqrt_radicand_div_le r1 r2 c hr1.le hr2.le hc2 hc1
  have hnn : 0 ≤ Real.sqrt (radicand r1 r2 c) / c :=
    div_nonneg (Real.sqrt_nonneg _) hcd.le
  have hne : hi - lo ≠ 0 := ne_of_gt (sub_pos.mpr hlt)
  rw [eq_div_iff hne] at hslope
  nlinarith [mul_le_mul_of_nonneg_right hbound (sub_pos.mpr hlt).le]

lemma add_sub_abs_sub (r1 r2 : ℝ) (h1 : 0 ≤ r1) (h2 : 0 ≤ r2) :
    (r1 + r2) - |r1 - r2| = 2 * min r1 r2 := by
  rcases le_total r1 r2 with h | h
  · rw [abs_of_nonpos (sub_nonpos.mpr h), min_eq_left h]
    ring
  · rw [abs_of_nonneg (sub_nonneg.mpr h), min_eq_right h]
    ring

lemma three_mul_sq_add_le (x y A B T : ℝ)
    (hA : Real.pi * x ^ 2 = A) (hB : Real.pi * y ^ 2 = B)
    (hT : A + B ≤ 2 * T) :
    3 * ((x + y) * (x + y)) ≤ 4 * T := by
  have hpi3 : (3 : ℝ) < Real.pi := Real.pi_gt_three
  nlinarith [mul_nonneg Real.pi_pos.le (sq_nonneg (x - y)),
    mul_nonneg (by linarith : (0 : ℝ) ≤ Real.pi - 3) (sq_nonneg (x + y))]

lemma final_div_bound (X S T : ℝ) (h1 : X ≤ S) (h2 : 3 * S ≤ 4 * T)
    (hT : 0 ≤ T) : X / 2 ^ 60 ≤ T / 10000 := by
  have h60 : ((2 : ℝ)) ^ 60 = 1152921504606846976 := by norm_num
  rw [div_le_div_iff (by positivity) (by norm_num), h60]
  linarith

/-- C1: for every non-negative integer triple, the solver's distance lies
in `[|r1-r2|, r1+r2]` and the lens area recomputed at that distance is
within `max(0.01% of total area, 1e-6)` of the clamped target area. -/
theorem C1_solver_distance_and_area (only_a only_b both : ℕ) :
    |radiusOf (only_a + both) - radiusOf (only_b + both)| ≤
      _solve_circle_distance (radiusOf (only_a + both))
        (radiusOf (only_b + both)) (both : ℝ) ∧
    _solve_circle_distance (radiusOf (only_a + both))
        (radiusOf (only_b + both)) (both : ℝ) ≤
      radiusOf (only_a + both) + radiusOf (only_b + both) ∧
    |_circle_intersection_area (radiusOf (only_a + both))
        (radiusOf (only_b + both))
        (_solve_circle_distance (radiusOf (only_a + both))
          (radiusOf (only_b + both)) (both : ℝ)) -
      clampedTarget (radiusOf (only_a + both)) (radiusOf (only_b + both))
        (both : ℝ)| ≤
      max (((only_a : ℝ) + (only_b : ℝ) + (both : ℝ)) / 10000)
        (1 / 1000000) := by
  set r1 := radiusOf (only_a + both) with hr1def
  set r2 := radiusOf (only_b + both) with hr2def
  set t := (both : ℝ) with htdef
  have h1 : 0 ≤ r1 := radiusOf_nonneg _
  have h2 : 0 ≤ r2 := radiusOf_nonneg _
  have habs_le : |r1 - r2| ≤ r1 + r2 := by
    rw [abs_le]
    constructor <;> linarith
  have hct0 : 0 ≤ clampedTarget r1 r2 t :=
    le_min (le_max_right _ _) (max_area_nonneg r1 r2)
  by_cases hz : clampedTarget r1 r2 t = 0
  · have hd : _solve_circle_distance r1 r2 t = r1 + r2 := by
      unfold _solve_circle_distance
      rw [if_pos hz]
    refine ⟨by rw [hd]; exact habs_le, by rw [hd], ?_⟩
    rw [hd, area_at_outer, hz, sub_zero, abs_zero]
    positivity
  · by_cases hm : clampedTarget r1 r2 t = max_area r1 r2
    · have hd : _solve_circle_distance r1 r2 t = |r1 - r2| := by
        unfold _solve_circle_distance
        rw [if_neg hz, if_pos hm]
      have hma_pos : 0 < max_area r1 r2 :=
        lt_of_le_of_ne (max_area_nonneg r1 r2)
          (fun h => hz (hm.trans h.symm))
      have hmin_pos : 0 < min r1 r2 := by
        by_contra hcon
        have hc0 : min r1 r2 = 0 :=
          le_antisymm (not_lt.mp hcon) (le_min h1 h2)
        unfold max_area at hma_pos
        rw [hc0] at hma_pos
        norm_num at hma_pos
      have hp1 : 0 < r1 := lt_of_lt_of_le hmin_pos (min_le_left _ _)
      have hp2 : 0 < r2 := lt_of_lt_of_le hmin_pos (min_le_right _ _)
      have hblt := abs_sub_lt_add r1 r2 hp1 hp2
      refine ⟨by rw [hd], by rw [hd]; exact habs_le, ?_⟩
      rw [hd, area_at_inner r1 r2 hblt,
        show Real.pi * min r1 r2 ^ 2 = max_area r1 r2 from rfl, ← hm,
        sub_self, abs_zero]
      positivity
    · -- bisection branch
      have hctpos : 0 < clampedTarget r1 r2 t :=
        lt_of_le_of_ne hct0 (Ne.symm hz)
      have hctle : clampedTarget r1 r2 t ≤ max_area r1 r2 := min_le_right _ _
      have hma_pos : 0 < max_area r1 r2 := lt_of_lt_of_le hctpos hctle
      have hmin_pos : 0 < min r1 r2 := by
        by_contra hcon
        have hc0 : min r1 r2 = 0 :=
          le_antisymm (not_lt.mp hcon) (le_min h1 h2)
        unfold max_area at hma_pos
        rw [hc0] at hma_pos
        norm_num at hma_pos
      have hp1 : 0 < r1 := lt_of_lt_of_le hmin_pos (min_le_left _ _)
      have hp2 : 0 < r2 := lt_of_lt_of_le hmin_pos (min_le_right _ _)
      have hblt := abs_sub_lt_add r1 r2 hp1 hp2
      have hareab : _circle_intersection_area r1 r2 (r1 + r2) ≤
          clampedTarget r1 r2 t := by
        rw [area_at_outer]
        exact hctpos.le
      have hareaa : clampedTarget r1 r2 t ≤
          _circle_intersection_area r1 r2 |r1 - r2| := by
        rw [area_at_inner r1 r2 hblt]
        exact hctle
      obtain ⟨i1, i2, i3, i4, i5, i6⟩ :=
        bisectLoop_spec r1 r2 (clampedTarget r1 r2 t) 60
          (|r1 - r2|, r1 + r2) le_rfl hblt le_rfl hareab hareaa
      set q := bisectLoop r1 r2 (clampedTarget r1 r2 t) 60
        (|r1 - r2|, r1 + r2) with hqdef
      have hd : _solve_circle_distance r1 r2 t = (q.1 + q.2) / 2 := by
        unfold _solve_circle_distance
        rw [if_neg hz, if_neg hm]
      have hm_lo : q.1 < (q.1 + q.2) / 2 := by linarith
      have hm_hi : (q.1 + q.2) / 2 < q.2 := by linarith
      refine ⟨by rw [hd]; linarith, by rw [hd]; linarith, ?_⟩
      rw [hd]
      have hmem_m : (q.1 + q.2) / 2 ∈ Set.Icc |r1 - r2| (r1 + r2) :=
        ⟨by linarith, by linarith⟩
      have hmem_lo : q.1 ∈ Set.Icc |r1 - r2| (r1 + r2) := ⟨i1, by linarith⟩
      have hmem_hi : q.2 ∈ Set.Icc |r1 - r2| (r1 + r2) := ⟨by linarith, i3⟩
      have hanti := area_antitoneOn r1 r2 h1 h2
      have hA1 : _circle_intersection_area r1 r2 ((q.1 + q.2) / 2) ≤
          _circle_intersection_area r1 r2 q.1 :=
        hanti hmem_lo hmem_m hm_lo.le
      have hA2 : _circle_intersection_area r1 r2 q.2 ≤
          _circle_intersection_area r1 r2 ((q.1 + q.2) / 2) :=
        hanti hmem_m hmem_hi hm_hi.le
      have hdiff : _circle_intersection_area r1 r2 q.1 -
          _circle_intersection_area r1 r2 q.2 ≤
          (r1 + r2) * (q.2 - q.1) :=
        area_sub_le r1 r2 hp1 hp2 q.1 q.2 i1 i2 i3
      have habs_err : |_circle_intersection_area r1 r2 ((q.1 + q.2) / 2) -
          clampedTarget r1 r2 t| ≤
          _circle_intersection_area r1 r2 q.1 -
            _circle_intersection_area r1 r2 q.2 := by
        rw [abs_le]
        constructor
        · linarith
        · linarith
      have hw : q.2 - q.1 = ((r1 + r2) - |r1 - r2|) / 2 ^ 60 := i6
      have hmin2 : (r1 + r2) - |r1 - r2| = 2 * min r1 r2 :=
        add_sub_abs_sub r1 r2 h1 h2
      have hA : Real.pi * r1 ^ 2 = ((only_a + both : ℕ) : ℝ) := by
        rw [hr1def, sq_radiusOf]
        field_simp
      have hB : Real.pi * r2 ^ 2 = ((only_b + both : ℕ) : ℝ) := by
        rw [hr2def, sq_radiusOf]
        field_simp
      have hT0 : (0 : ℝ) ≤ (only_a : ℝ) + (only_b : ℝ) + (both : ℝ) := by
        positivity
      have hstep1 : (r1 + r2) * (2 * min r1 r2) ≤ (r1 + r2) * (r1 + r2) :=
        mul_le_mul_of_nonneg_left
          (by linarith [min_le_left r1 r2, min_le_right r1 r2])
          (by linarith)
      have hAB : ((only_a + both : ℕ) : ℝ) + ((only_b + both : ℕ) : ℝ) ≤
          2 * ((only_a : ℝ) + (only_b : ℝ) + (both : ℝ)) := by
        push_cast
        have ha0 : (0 : ℝ) ≤ (only_a : ℝ) := by positivity
        have hb0 : (0 : ℝ) ≤ (only_b : ℝ) := by positivity
        linarith
      have hstep2 := three_mul_sq_add_le r1 r2 _ _ _ hA hB hAB
      calc |_circle_intersection_area r1 r2 ((q.1 + q.2) / 2) -
          clampedTarget r1 r2 t| ≤
          _circle_intersection_area r1 r2 q.1 -
            _circle_intersection_area r1 r2 q.2 := habs_err
        _ ≤ (r1 + r2) * (q.2 - q.1) := hdiff
        _ = (r1 + r2) * (2 * min r1 r2) / 2 ^ 60 := by
            rw [hw, hmin2]
            ring
        _ ≤ ((only_a : ℝ) + (only_b : ℝ) + (both : ℝ)) / 10000 :=
            final_div_bound _ _ _ hstep1 hstep2 hT0
        _ ≤ max (((only_a : ℝ) + (only_b : ℝ) + (both : ℝ)) / 10000)
            (1 / 1000000) := le_max_left _ _

end CompareResults
